import Mathlib

/-!
Verification of the go-sphere/confstore repository: a shallow embedding of
its provider-selection policy (`provider/selector.go`), its bounded HTTP
fetch (`provider` package, `HTTP.Read`), its environment-expansion adapter
(`provider/expand.go`) and its multi-codec fallback group
(`codec` package, `FallbackCodecGroup`), together with theorems settling
the specification claims about those components.

Go errors are modelled as finite trees (`GoErr`): `base` is `errors.New`,
`wrap` is `fmt.Errorf` with a single `%w`, and `join` is `errors.Join`.
`GoErr.is` models `errors.Is`: it walks the unwrap tree and compares each
node against the target.  Sentinel errors are compared structurally; all
sentinels in this repository carry distinct messages, so structural
equality coincides with Go's pointer equality on them.
-/

namespace Confstore

mutual
/-- Go error values as unwrap trees: `base` models `errors.New`,
`wrap` models `fmt.Errorf("...: %w", inner)`, and `join` models
`errors.Join(errs...)` over its non-nil arguments. -/
inductive GoErr where
| base (msg : String) : GoErr
| wrap (msg : String) (inner : GoErr) : GoErr
| join (errs : GoErrList) : GoErr
deriving DecidableEq
/-- List of Go errors, as carried by an `errors.Join` node. -/
inductive GoErrList where
| nil : GoErrList
| cons (head : GoErr) (tail : GoErrList) : GoErrList
deriving DecidableEq
end

mutual
/-- Models `errors.Is(e, t)`: the target is compared against every node of
the unwrap tree (`Unwrap() error` for `wrap`, `Unwrap() []error` for `join`). -/
def GoErr.is : GoErr → GoErr → Bool
| .base s, t => GoErr.base s == t
| .wrap s a, t => GoErr.wrap s a == t || GoErr.is a t
| .join es, t => GoErr.join es == t || GoErrList.isAny es t
/-- Does `errors.Is` hold for the target against any member of the list. -/
def GoErrList.isAny : GoErrList → GoErr → Bool
| .nil, _ => false
| .cons e es, t => GoErr.is e t || GoErrList.isAny es t
end

/-- Converts a Lean list of errors into the joined-error payload. -/
def GoErrList.ofList : List GoErr → GoErrList
| [] => .nil
| e :: es => .cons e (GoErrList.ofList es)

/-- Models `errors.Is(err, t)` when `err` is a Go `error` value that may be nil:
`errors.Is(nil, t)` is false for the targets used in this repository. -/
def optErrIs (oe : Option GoErr) (t : GoErr) : Bool :=
match oe with
| none => false
| some e => GoErr.is e t

/-! ## provider/selector.go: sentinels, Selector, SelectorWithErrors, If, IfE -/

/-- Sentinel `ErrNoValidProvider` from `provider/selector.go`. -/
def ErrNoValidProvider : GoErr := .base "no valid provider found"

/-- Sentinel `ErrNotMatched` from `provider/selector.go`. -/
def ErrNotMatched : GoErr := .base "provider not matched"

/-- Sentinel `ErrNilProvider` from `provider/selector.go`. -/
def ErrNilProvider : GoErr := .base "provider is nil"

/-- Result of a selector case function, modelling Go's `(Provider, error)`
pair: the provider interface value may be nil (`none`) and the error may be
nil (`none`); all four combinations are representable, as in Go. -/
abbrev CaseResult (P : Type) := Option P × Option GoErr

/-- A selector case, modelling `func(T) (Provider, error)`. -/
abbrev Case (K P : Type) := K → CaseResult P

/-- Embedding of `Selector` from `provider/selector.go`: tries each case in
order; any error (not-matched or otherwise) means continue; a non-nil
provider with nil error is returned immediately; a `(nil, nil)` case is
treated as a non-match; exhaustion returns `ErrNoValidProvider`. -/
def Selector {K P : Type} (param : K) : List (Case K P) → Option P × Option GoErr
| [] => (none, some ErrNoValidProvider)
| c :: rest =>
  match c param with
  | (_, some e) =>
    -- Ignore not-matched and continue; any other error also continues.
    if GoErr.is e ErrNotMatched then Selector param rest else Selector param rest
  | (some p, none) => (some p, none)
  | (none, none) => Selector param rest

/-- Loop of `SelectorWithErrors` from `provider/selector.go`, with the
`joined []error` accumulator made explicit; at exhaustion the accumulated
errors plus `ErrNoValidProvider` are combined with `errors.Join`. -/
def selectorWithErrorsLoop {K P : Type} (param : K) (joined : List GoErr) :
    List (Case K P) → Option P × Option GoErr
| [] => (none, some (.join (GoErrList.ofList (joined ++ [ErrNoValidProvider]))))
| c :: rest =>
  match c param with
  | (_, some e) =>
    if GoErr.is e ErrNotMatched then selectorWithErrorsLoop param joined rest
    else selectorWithErrorsLoop param (joined ++ [e]) rest
  | (some p, none) => (some p, none)
  | (none, none) => selectorWithErrorsLoop param (joined ++ [ErrNilProvider]) rest

/-- Embedding of `SelectorWithErrors` from `provider/selector.go`. -/
def SelectorWithErrors {K P : Type} (param : K) (cs : List (Case K P)) :
    Option P × Option GoErr :=
selectorWithErrorsLoop param [] cs

/-- Embedding of `If` from `provider/selector.go`: builds a case from a
predicate and a factory that returns a possibly-nil provider. -/
def If {K P : Type} (cond : K → Bool) (thenFn : K → Option P) : Case K P := fun p =>
  if cond p then
    match thenFn p with
    | none => (none, some ErrNilProvider)
    | some prov => (some prov, none)
  else (none, some ErrNotMatched)

/-- Embedding of `IfE` from `provider/selector.go`: like `If` but the
factory may itself fail with an error. -/
def IfE {K P : Type} (cond : K → Bool) (thenFn : K → CaseResult P) : Case K P := fun p =>
  if !(cond p) then (none, some ErrNotMatched)
  else
    match thenFn p with
    | (_, some e) => (none, some e)
    | (none, none) => (none, some ErrNilProvider)
    | (some prov, none) => (some prov, none)

/-- A Boolean marker for "this case does not select a provider": the case
returned a non-nil error, or a nil provider.  This is exactly the
condition under which both selector variants continue past the case. -/
def caseFails {K P : Type} (param : K) (c : Case K P) : Bool :=
  (c param).2.isSome || (c param).1.isNone

/-- The diagnostic errors `SelectorWithErrors` accumulates over a run of
cases none of which is selected: case errors not matching `ErrNotMatched`
are kept, and each `(nil, nil)` case contributes one `ErrNilProvider`. -/
def collectErrs {K P : Type} (param : K) : List (Case K P) → List GoErr
| [] => []
| c :: rest =>
  match c param with
  | (_, some e) =>
    if GoErr.is e ErrNotMatched then collectErrs param rest
    else e :: collectErrs param rest
  | (some _, none) => []
  | (none, none) => ErrNilProvider :: collectErrs param rest

/-! ## provider HTTP source: sentinel and `HTTP.Read`

The transport is abstracted: a fetch is modelled by the `HTTPResponse` the
server produced (status line, declared content length, full body stream).
Request building and transport failures are external IO and outside the
modelled state; `io.ReadAll` on the pure byte stream cannot fail.
`buffered` counts the bytes `io.ReadAll` pulled into the returned buffer;
`consumed` counts every byte taken off the stream, including bytes drained
into `io.Discard`. -/

/-- Sentinel `ErrBodyTooLarge` from the HTTP provider source. -/
def ErrBodyTooLarge : GoErr := .base "http provider: body too large"

/-- An HTTP response as observed by `HTTP.Read`: `statusCode` and `status`
mirror `resp.StatusCode` and `resp.Status`, `contentLength` mirrors
`resp.ContentLength` (−1 when unknown), and `body` is the full byte stream
the connection would deliver. -/
structure HTTPResponse where
  statusCode : Int
  status : String
  contentLength : Int
  body : List Nat

/-- The HTTP provider configuration used by `Read`: endpoint `url`,
`method` (`h.opts.method`) and `maxBodySize` (`h.opts.maxBodySize`,
non-positive means unlimited). -/
structure HTTP where
  url : String
  method : String
  maxBodySize : Int

/-- Outcome of `HTTP.Read`: the returned bytes and error, plus stream
accounting (`buffered` = bytes read into the result buffer by
`io.ReadAll`; `consumed` = total bytes taken off the stream, drains
included). -/
structure HTTPReadResult where
  data : Option (List Nat)
  err : Option GoErr
  buffered : Nat
  consumed : Nat

/-- Embedding of `HTTP.Read` from the provider package: non-2xx statuses
drain the body and fail with a status-context message; a declared
content length above a positive limit drains and fails with
`ErrBodyTooLarge` before buffering anything; otherwise the body is read
through `io.LimitReader(body, maxBodySize+1)` and a buffered length above
the limit drains the rest and fails with `ErrBodyTooLarge`. -/
def HTTP.Read (h : HTTP) (resp : HTTPResponse) : HTTPReadResult :=
  if resp.statusCode < 200 ∨ 300 ≤ resp.statusCode then
    { data := none
      err := some (.base ("http provider: " ++ h.method ++ " " ++ h.url ++
        " unexpected status " ++ resp.status))
      buffered := 0
      consumed := resp.body.length }
  else if 0 < h.maxBodySize ∧ h.maxBodySize < resp.contentLength then
    { data := none
      err := some (.wrap ("content-length " ++ toString resp.contentLength ++
        " exceeds limit " ++ toString h.maxBodySize) ErrBodyTooLarge)
      buffered := 0
      consumed := resp.body.length }
  else
    let bodyData := if 0 < h.maxBodySize then resp.body.take (h.maxBodySize + 1).toNat
      else resp.body
    if 0 < h.maxBodySize ∧ h.maxBodySize < (bodyData.length : Int) then
      { data := none
        err := some (.wrap ("read " ++ toString bodyData.length ++
          " exceeds limit " ++ toString h.maxBodySize) ErrBodyTooLarge)
        buffered := bodyData.length
        consumed := resp.body.length }
    else
      { data := some bodyData
        err := none
        buffered := bodyData.length
        consumed := bodyData.length }

/-! ## provider/expand.go: `ExpandEnv.Read` -/

/-- Embedding of `ExpandEnv.Read` from `provider/expand.go`.  The wrapped
provider's outcome is passed in as `(innerData, innerErr)` (Go returns a
possibly-nil byte slice and a possibly-nil error), and `expandFn` models
`os.ExpandEnv` over the raw bytes.  On an inner error the error is
returned with nil bytes; when the payload is empty or holds no `'$'`
byte (36) the original slice is returned as is, without invoking the
expansion; otherwise the expanded copy is returned. -/
def ExpandEnv.Read (expandFn : List Nat → List Nat)
    (innerData : Option (List Nat)) (innerErr : Option GoErr) :
    Option (List Nat) × Option GoErr :=
  match innerErr with
  | some e => (none, some e)
  | none =>
    let data := innerData.getD []
    if data.length = 0 ∨ data.contains 36 = false then (innerData, none)
    else (some (expandFn data), none)

/-! ## codec package: `FallbackCodecGroup`

A Go codec is observed by the group through four behaviours, one per shape
of destination it can be handed: `marshal` models `Marshal(value)`;
`unmarshalPtr data start` models `Unmarshal(data, p)` for a non-nil
pointer `p` whose pointee initially holds `start`, returning the final
pointee and the error (a codec may write partial fields and then fail);
`unmarshalNil` models `Unmarshal(data, p)` for a nil typed pointer, and
`unmarshalVal` for a non-pointer destination — in both of those shapes the
codec cannot change the caller-visible destination. -/

/-- Observable behaviour of one Go `Codec` over values of type `V`. -/
structure GoCodec (V : Type) where
  marshal : V → Option (List Nat) × Option GoErr
  unmarshalPtr : List Nat → V → V × Option GoErr
  unmarshalNil : List Nat → Option GoErr
  unmarshalVal : List Nat → Option GoErr

/-- The destination handed to `Unmarshal`, as classified by
`reflect.ValueOf(value)`: a non-nil pointer with current pointee `v`, a
nil typed pointer, or a non-pointer value. -/
inductive Dest (V : Type) where
| ptr (v : V) : Dest V
| nilPtr : Dest V
| nonPtr : Dest V
deriving DecidableEq

/-- Embedding of the `FallbackCodecGroup` struct from the codec package. -/
structure FallbackCodecGroup (V : Type) where
  codecs : List (GoCodec V)

/-- The per-codec position tag `fmt.Errorf("codec[%d]: %w", i, err)`. -/
def codecTag (i : Nat) : String := "codec[" ++ toString i ++ "]: "

/-- Models `errors.Join(acc, e)` as used in the group loops: `acc` is the
running `joined error` (nil at first), `e` is non-nil. -/
def errJoin2 (acc : Option GoErr) (e : GoErr) : GoErr :=
match acc with
| none => .join (.cons e .nil)
| some a => .join (.cons a (.cons e .nil))

/-- Loop of `FallbackCodecGroup.Marshal`: first codec with a nil error
wins; otherwise each error is tagged with its position and joined, and
exhaustion wraps the join as `fallback marshal failed`. -/
def marshalLoop {V : Type} (value : V) :
    List (GoCodec V) → Nat → Option GoErr → Option (List Nat) × Option GoErr
| [], _, joined => (none, some (.wrap "fallback marshal failed: " (joined.getD (.join .nil))))
| c :: rest, i, joined =>
  match c.marshal value with
  | (data, none) => (data, none)
  | (_, some e) => marshalLoop value rest (i + 1) (some (errJoin2 joined (.wrap (codecTag i) e)))

/-- Embedding of `FallbackCodecGroup.Marshal` from the codec package. -/
def FallbackCodecGroup.Marshal {V : Type} (m : FallbackCodecGroup V) (value : V) :
    Option (List Nat) × Option GoErr :=
  if m.codecs.isEmpty then (none, some (.base "fallback marshal: no codecs configured"))
  else marshalLoop value m.codecs 0 none

/-- Loop of `FallbackCodecGroup.Unmarshal`.  `zero` is the zero value of
`V` produced by `reflect.New(rv.Elem().Type())`.  For a non-nil pointer
destination each codec decodes into a fresh temporary starting at `zero`;
only on success is the temporary committed (`rv.Elem().Set(tmp.Elem())`).
For a nil pointer or non-pointer destination the codec is invoked directly
on the given value.  Failures are tagged by position and joined; at
exhaustion the join is wrapped as `fallback unmarshal failed`. -/
def unmarshalLoop {V : Type} (zero : V) (data : List Nat) :
    List (GoCodec V) → Nat → Option GoErr → Dest V → Dest V × Option GoErr
| [], _, joined, dest =>
  (dest, some (.wrap "fallback unmarshal failed: " (joined.getD (.join .nil))))
| c :: rest, i, joined, dest =>
  match dest with
  | .ptr _ =>
    match c.unmarshalPtr data zero with
    | (tmp, none) => (.ptr tmp, none)
    | (_, some e) =>
      unmarshalLoop zero data rest (i + 1) (some (errJoin2 joined (.wrap (codecTag i) e))) dest
  | .nilPtr =>
    match c.unmarshalNil data with
    | none => (dest, none)
    | some e =>
      unmarshalLoop zero data rest (i + 1) (some (errJoin2 joined (.wrap (codecTag i) e))) dest
  | .nonPtr =>
    match c.unmarshalVal data with
    | none => (dest, none)
    | some e =>
      unmarshalLoop zero data rest (i + 1) (some (errJoin2 joined (.wrap (codecTag i) e))) dest

/-- Embedding of `FallbackCodecGroup.Unmarshal` from the codec package;
returns the destination as visible after the call along with the error. -/
def FallbackCodecGroup.Unmarshal {V : Type} (m : FallbackCodecGroup V) (zero : V)
    (data : List Nat) (dest : Dest V) : Dest V × Option GoErr :=
  if m.codecs.isEmpty then (dest, some (.base "fallback unmarshal: no codecs configured"))
  else unmarshalLoop zero data m.codecs 0 none dest

/-- The error a single codec's attempt produces inside the unmarshal loop,
for each destination shape (for a non-nil pointer the attempt is staged on
the fresh temporary `zero`). -/
def codecAttemptErr {V : Type} (c : GoCodec V) (zero : V) (data : List Nat) :
    Dest V → Option GoErr
| .ptr _ => (c.unmarshalPtr data zero).2
| .nilPtr => c.unmarshalNil data
| .nonPtr => c.unmarshalVal data

/-- The destination visible after a successful attempt by codec `c`: a
non-nil pointer receives the staged temporary's final value, the other
shapes are untouched. -/
def commitDest {V : Type} (dest : Dest V) (c : GoCodec V) (zero : V) (data : List Nat) :
    Dest V :=
match dest with
| .ptr _ => .ptr (c.unmarshalPtr data zero).1
| .nilPtr => .nilPtr
| .nonPtr => .nonPtr

/-! ## Concrete instances used by the witness theorems -/

/-- A case whose predicate rejects the key 42 (models a rule whose
condition is false). -/
def wCaseNotMatched : Case Nat Nat := If (fun k => k == 99) (fun _ => some 1)

/-- A case failing with an ordinary (non-sentinel) error. -/
def wCaseErr : Case Nat Nat := fun _ => (none, some (.base "case boom"))

/-- A case returning `(nil, nil)`. -/
def wCaseNil : Case Nat Nat := fun _ => (none, none)

/-- A case whose predicate accepts the key 42 and whose factory yields
provider 7. -/
def wCaseOk : Case Nat Nat := If (fun k => k == 42) (fun _ => some 7)

/-- A later case that would match everything with provider 8. -/
def wCaseLater : Case Nat Nat := If (fun _ => true) (fun _ => some 8)

/-- A codec failing every operation, with distinct causes per shape. -/
def wFailCodec : GoCodec Nat :=
  { marshal := fun _ => (none, some (.base "m1 bad"))
    unmarshalPtr := fun _ start => (start + 1, some (.base "u1 bad"))
    unmarshalNil := fun _ => some (.base "n1 bad")
    unmarshalVal := fun _ => some (.base "v1 bad") }

/-- A second always-failing codec with different causes. -/
def wFail2Codec : GoCodec Nat :=
  { marshal := fun _ => (none, some (.base "m2 bad"))
    unmarshalPtr := fun _ start => (start + 2, some (.base "u2 bad"))
    unmarshalNil := fun _ => some (.base "n2 bad")
    unmarshalVal := fun _ => some (.base "v2 bad") }

/-- A codec succeeding every operation: unmarshal writes 7 into a non-nil
pointer, marshal yields the byte 7. -/
def wOkCodec : GoCodec Nat :=
  { marshal := fun _ => (some [7], none)
    unmarshalPtr := fun _ _ => (7, none)
    unmarshalNil := fun _ => none
    unmarshalVal := fun _ => none }

/-- A group whose first codec fails and whose second succeeds. -/
def wGroup : FallbackCodecGroup Nat := ⟨[wFailCodec, wOkCodec]⟩

/-- A group both of whose codecs fail. -/
def wFailPair : FallbackCodecGroup Nat := ⟨[wFailCodec, wFail2Codec]⟩

/-- A 2xx response whose body length equals the limit 3. -/
def wRespOk : HTTPResponse := ⟨200, "200 OK", 3, [10, 20, 30]⟩

/-- A 2xx response declaring a content length above the limit 3. -/
def wRespBig : HTTPResponse := ⟨200, "200 OK", 9, [1, 2]⟩

/-- A 2xx response with unknown content length streaming 5 bytes. -/
def wRespStream : HTTPResponse := ⟨200, "200 OK", -1, [1, 2, 3, 4, 5]⟩

/-- A 500 response. -/
def wRespErr : HTTPResponse := ⟨500, "500 Internal Server Error", -1, [1, 2, 3]⟩

/-- An HTTP provider with method GET and body limit 3. -/
def wHTTP : HTTP := ⟨"http://example/conf", "GET", 3⟩

/-! ## Basic facts about the error model -/

theorem GoErr.is_refl (e : GoErr) : GoErr.is e e = true := by
cases e <;> simp [GoErr.is]

mutual
theorem GoErr.is_trans : ∀ a x y : GoErr,
    GoErr.is a x = true → GoErr.is x y = true → GoErr.is a y = true
| .base s, x, y => by
    simp only [GoErr.is, beq_iff_eq]
    intro h1 h2
    subst h1
    simpa [GoErr.is] using h2
| .wrap s a, x, y => by
    simp only [GoErr.is, Bool.or_eq_true, beq_iff_eq]
    intro h1 h2
    rcases h1 with h1 | h1
    · subst h1
      simpa [GoErr.is] using h2
    · exact Or.inr (GoErr.is_trans a x y h1 h2)
| .join es, x, y => by
    simp only [GoErr.is, Bool.or_eq_true, beq_iff_eq]
    intro h1 h2
    rcases h1 with h1 | h1
    · subst h1
      simpa [GoErr.is] using h2
    · exact Or.inr (GoErrList.isAny_trans es x y h1 h2)
theorem GoErrList.isAny_trans : ∀ (l : GoErrList) (x y : GoErr),
    GoErrList.isAny l x = true → GoErr.is x y = true → GoErrList.isAny l y = true
| .nil, x, y => by simp [GoErrList.isAny]
| .cons e es, x, y => by
    simp only [GoErrList.isAny, Bool.or_eq_true]
    intro h1 h2
    rcases h1 with h1 | h1
    · exact Or.inl (GoErr.is_trans e x y h1 h2)
    · exact Or.inr (GoErrList.isAny_trans es x y h1 h2)
end

theorem GoErrList.isAny_ofList (L : List GoErr) (t : GoErr) :
    GoErrList.isAny (GoErrList.ofList L) t = L.any (fun e => GoErr.is e t) := by
induction L with
| nil => simp [GoErrList.ofList, GoErrList.isAny]
| cons e es ih => simp [GoErrList.ofList, GoErrList.isAny, ih]

theorem errJoin2_is_left (a e t : GoErr) (h : GoErr.is a t = true) :
    GoErr.is (errJoin2 (some a) e) t = true := by
simp [errJoin2, GoErr.is, GoErrList.isAny, h]

theorem errJoin2_is_right (acc : Option GoErr) (e t : GoErr) (h : GoErr.is e t = true) :
    GoErr.is (errJoin2 acc e) t = true := by
cases acc <;> simp [errJoin2, GoErr.is, GoErrList.isAny, h]

/-! ## Selector traversal lemmas -/

theorem case_result_eq {K P : Type} (param : K) (c : Case K P) (p : P)
    (h1 : (c param).1 = some p) (h2 : (c param).2 = none) :
    c param = (some p, none) := by
rcases hc : c param with ⟨a, b⟩
rw [hc] at h1 h2
exact Prod.ext h1 h2

theorem Selector_skip {K P : Type} (param : K) (c : Case K P) (rest : List (Case K P))
    (h : caseFails param c = true) :
    Selector param (c :: rest) = Selector param rest := by
rcases hc : c param with ⟨a, b⟩
cases b with
| some e => simp [Selector, hc]
| none =>
  cases a with
  | none => simp [Selector, hc]
  | some p =>
    exfalso
    simp [caseFails, hc] at h

theorem Selector_skip_all {K P : Type} (param : K) :
    ∀ (pre rest : List (Case K P)), pre.all (caseFails param) = true →
    Selector param (pre ++ rest) = Selector param rest := by
intro pre
induction pre with
| nil => intro rest _; rfl
| cons c pre ih =>
  intro rest h
  simp only [List.all_cons, Bool.and_eq_true] at h
  rw [List.cons_append, Selector_skip param c (pre ++ rest) h.1]
  exact ih rest h.2

theorem Selector_success {K P : Type} (param : K) (c : Case K P) (rest : List (Case K P))
    (p : P) (h1 : (c param).1 = some p) (h2 : (c param).2 = none) :
    Selector param (c :: rest) = (some p, none) := by
simp [Selector, case_result_eq param c p h1 h2]

theorem selectorLoop_success {K P : Type} (param : K) (c : Case K P) (rest : List (Case K P))
    (p : P) (joined : List GoErr)
    (h1 : (c param).1 = some p) (h2 : (c param).2 = none) :
    selectorWithErrorsLoop param joined (c :: rest) = (some p, none) := by
simp [selectorWithErrorsLoop, case_result_eq param c p h1 h2]

theorem selectorLoop_append {K P : Type} (param : K) :
    ∀ (pre rest : List (Case K P)) (joined : List GoErr),
    pre.all (caseFails param) = true →
    selectorWithErrorsLoop param joined (pre ++ rest) =
      selectorWithErrorsLoop param (joined ++ collectErrs param pre) rest := by
intro pre
induction pre with
| nil => intro rest joined _; simp [collectErrs]
| cons c pre ih =>
  intro rest joined h
  simp only [List.all_cons, Bool.and_eq_true] at h
  rcases hc : c param with ⟨a, b⟩
  cases b with
  | some e =>
    cases hm : GoErr.is e ErrNotMatched with
    | true =>
      have hrec := ih rest joined h.2
      simp [selectorWithErrorsLoop, collectErrs, hc, hm, hrec]
    | false =>
      have hrec := ih rest (joined ++ [e]) h.2
      simp [selectorWithErrorsLoop, collectErrs, hc, hm, hrec, List.append_assoc]
  | none =>
    cases a with
    | some p =>
      exfalso
      simp [caseFails, hc] at h
    | none =>
      have hrec := ih rest (joined ++ [ErrNilProvider]) h.2
      simp [selectorWithErrorsLoop, collectErrs, hc, hrec, List.append_assoc]

theorem Selector_exhausted {K P : Type} (param : K) :
    ∀ cs : List (Case K P), cs.all (caseFails param) = true →
    Selector param cs = (none, some ErrNoValidProvider) := by
intro cs
induction cs with
| nil => intro _; rfl
| cons c rest ih =>
  intro h
  simp only [List.all_cons, Bool.and_eq_true] at h
  rw [Selector_skip param c rest h.1]
  exact ih h.2

theorem SelectorWithErrors_exhausted {K P : Type} (param : K) (cs : List (Case K P))
    (h : cs.all (caseFails param) = true) :
    SelectorWithErrors param cs =
      (none, some (.join (GoErrList.ofList (collectErrs param cs ++ [ErrNoValidProvider])))) := by
have happ := selectorLoop_append param cs [] [] h
rw [List.append_nil] at happ
unfold SelectorWithErrors
rw [happ]
simp [selectorWithErrorsLoop]

theorem joinL_is_of_mem (L : List GoErr) (e t : GoErr) (he : e ∈ L)
    (ht : GoErr.is e t = true) :
    GoErr.is (.join (GoErrList.ofList L)) t = true := by
rw [GoErr.is, GoErrList.isAny_ofList, Bool.or_eq_true, List.any_eq_true]
exact Or.inr ⟨e, he, ht⟩

theorem joinL_is_base_false (L : List GoErr) (s : String)
    (hne : ∀ e ∈ L, GoErr.is e (.base s) = false) :
    GoErr.is (.join (GoErrList.ofList L)) (.base s) = false := by
rw [GoErr.is]
simp only [Bool.or_eq_false_iff, beq_eq_false_iff_ne, ne_eq]
refine ⟨by simp, ?_⟩
rw [GoErrList.isAny_ofList]
simp only [List.any_eq_false]
intro e he
simp [hne e he]

theorem collectErrs_not_matched {K P : Type} (param : K) :
    ∀ (cs : List (Case K P)) (e : GoErr), e ∈ collectErrs param cs →
    GoErr.is e ErrNotMatched = false := by
intro cs
induction cs with
| nil => intro e he; simp [collectErrs] at he
| cons c rest ih =>
  intro e he
  rcases hc : c param with ⟨a, b⟩
  cases b with
  | some e' =>
    cases hm : GoErr.is e' ErrNotMatched with
    | true =>
      simp only [collectErrs, hc, hm, if_true] at he
      exact ih e he
    | false =>
      simp only [collectErrs, hc, hm, Bool.false_eq_true, if_false, List.mem_cons] at he
      rcases he with he | he
      · exact he ▸ hm
      · exact ih e he
  | none =>
    cases a with
    | some p =>
      simp [collectErrs, hc] at he
    | none =>
      simp only [collectErrs, hc, List.mem_cons] at he
      rcases he with he | he
      · subst he
        decide
      · exact ih e he

theorem collectErrs_mem {K P : Type} (param : K) :
    ∀ cs : List (Case K P), cs.all (caseFails param) = true →
    ∀ c ∈ cs, ∀ e : GoErr, (c param).2 = some e → GoErr.is e ErrNotMatched = false →
    e ∈ collectErrs param cs := by
intro cs
induction cs with
| nil => intro _ c hc; simp at hc
| cons c0 rest ih =>
  intro h c hmem e he hnm
  simp only [List.all_cons, Bool.and_eq_true] at h
  rcases List.mem_cons.mp hmem with hmem | hmem
  · subst hmem
    rcases hcp : c param with ⟨a, b⟩
    rw [hcp] at he
    replace he : b = some e := he
    subst he
    simp [collectErrs, hcp, hnm]
  · have hin := ih h.2 c hmem e he hnm
    rcases hcp : c0 param with ⟨a, b⟩
    cases b with
    | some e' =>
      cases hm : GoErr.is e' ErrNotMatched with
      | true => simpa [collectErrs, hcp, hm] using hin
      | false =>
        simp only [collectErrs, hcp, hm, Bool.false_eq_true, if_false, List.mem_cons]
        exact Or.inr hin
    | none =>
      cases a with
      | some p =>
        exfalso
        simp [caseFails, hcp] at h
      | none =>
        simp only [collectErrs, hcp, List.mem_cons]
        exact Or.inr hin

theorem collectErrs_count {K P : Type} (param : K) :
    ∀ cs : List (Case K P), cs.all (caseFails param) = true →
    cs.countP (fun c => (c param).1.isNone && (c param).2.isNone) ≤
      (collectErrs param cs).countP (fun e => e == ErrNilProvider) := by
intro cs
induction cs with
| nil => intro _; simp [collectErrs]
| cons c rest ih =>
  intro h
  simp only [List.all_cons, Bool.and_eq_true] at h
  have hrec := ih h.2
  rcases hc : c param with ⟨a, b⟩
  cases b with
  | some e =>
    have hL : (c :: rest).countP (fun c' => (c' param).1.isNone && (c' param).2.isNone) =
        rest.countP (fun c' => (c' param).1.isNone && (c' param).2.isNone) := by
      rw [List.countP_cons]
      simp [hc]
    rw [hL]
    cases hm : GoErr.is e ErrNotMatched with
    | true =>
      simpa [collectErrs, hc, hm] using hrec
    | false =>
      simp only [collectErrs, hc, hm, Bool.false_eq_true, if_false, List.countP_cons]
      exact le_trans hrec (Nat.le_add_right _ _)
  | none =>
    cases a with
    | some p =>
      exfalso
      simp [caseFails, hc] at h
    | none =>
      have hL : (c :: rest).countP (fun c' => (c' param).1.isNone && (c' param).2.isNone) =
          rest.countP (fun c' => (c' param).1.isNone && (c' param).2.isNone) + 1 := by
        rw [List.countP_cons]
        simp [hc]
      rw [hL]
      simp only [collectErrs, hc, List.countP_cons]
      have hnp : (ErrNilProvider == ErrNilProvider) = true := by decide
      simp only [hnp, if_true]
      exact Nat.add_le_add_right hrec 1

/-! ## FallbackCodecGroup loop lemmas -/

theorem unmarshalLoop_step {V : Type} (zero : V) (data : List Nat) (dest : Dest V)
    (c : GoCodec V) (rest : List (GoCodec V)) (i : Nat) (joined : Option GoErr)
    (e : GoErr) (he : codecAttemptErr c zero data dest = some e) :
    unmarshalLoop zero data (c :: rest) i joined dest =
      unmarshalLoop zero data rest (i + 1)
        (some (errJoin2 joined (.wrap (codecTag i) e))) dest := by
cases dest with
| ptr v =>
  simp only [codecAttemptErr] at he
  rcases hres : c.unmarshalPtr data zero with ⟨tmp, e?⟩
  rw [hres] at he
  replace he : e? = some e := he
  subst he
  simp only [unmarshalLoop, hres]
| nilPtr =>
  simp only [codecAttemptErr] at he
  simp only [unmarshalLoop, he]
| nonPtr =>
  simp only [codecAttemptErr] at he
  simp only [unmarshalLoop, he]

theorem unmarshalLoop_success_step {V : Type} (zero : V) (data : List Nat) (dest : Dest V)
    (c : GoCodec V) (rest : List (GoCodec V)) (i : Nat) (joined : Option GoErr)
    (hs : codecAttemptErr c zero data dest = none) :
    unmarshalLoop zero data (c :: rest) i joined dest =
      (commitDest dest c zero data, none) := by
cases dest with
| ptr v =>
  simp only [codecAttemptErr] at hs
  rcases hres : c.unmarshalPtr data zero with ⟨tmp, e?⟩
  rw [hres] at hs
  replace hs : e? = none := hs
  subst hs
  simp only [unmarshalLoop, hres, commitDest]
| nilPtr =>
  simp only [codecAttemptErr] at hs
  simp only [unmarshalLoop, hs, commitDest]
| nonPtr =>
  simp only [codecAttemptErr] at hs
  simp only [unmarshalLoop, hs, commitDest]

theorem unmarshalLoop_exhausted {V : Type} (zero : V) (data : List Nat) (dest : Dest V) :
    ∀ (cs : List (GoCodec V)) (i : Nat) (joined : Option GoErr),
    cs.all (fun c => (codecAttemptErr c zero data dest).isSome) = true →
    ∃ J, unmarshalLoop zero data cs i joined dest =
        (dest, some (.wrap "fallback unmarshal failed: " J)) ∧
      (∀ a x, joined = some a → GoErr.is a x = true → GoErr.is J x = true) ∧
      (∀ k : Nat, ∀ hk : k < cs.length, ∀ e : GoErr,
        codecAttemptErr (cs.get ⟨k, hk⟩) zero data dest = some e →
        GoErr.is J (.wrap (codecTag (i + k)) e) = true) := by
intro cs
induction cs with
| nil =>
  intro i joined _
  refine ⟨joined.getD (.join .nil), rfl, ?_, ?_⟩
  · intro a x ha hx
    subst ha
    exact hx
  · intro k hk
    exact absurd hk (by simp)
| cons c rest ih =>
  intro i joined h
  simp only [List.all_cons, Bool.and_eq_true] at h
  obtain ⟨e, he⟩ := Option.isSome_iff_exists.mp h.1
  obtain ⟨J, hJ, hmono, hpos⟩ := ih (i + 1) (some (errJoin2 joined (.wrap (codecTag i) e))) h.2
  refine ⟨J, ?_, ?_, ?_⟩
  · rw [unmarshalLoop_step zero data dest c rest i joined e he]
    exact hJ
  · intro a x ha hx
    subst ha
    exact hmono _ x rfl (errJoin2_is_left a _ x hx)
  · intro k hk e' he'
    cases k with
    | zero =>
      have he'' : codecAttemptErr c zero data dest = some e' := he'
      have hee : e = e' := Option.some_inj.mp (he.symm.trans he'')
      subst hee
      have htag : GoErr.is (errJoin2 joined (.wrap (codecTag i) e)) (.wrap (codecTag i) e) = true :=
        errJoin2_is_right joined _ _ (GoErr.is_refl _)
      have hfin := hmono _ _ rfl htag
      simpa using hfin
    | succ k =>
      have hk' : k < rest.length := by simpa using hk
      have he'' : codecAttemptErr (rest.get ⟨k, hk'⟩) zero data dest = some e' := he'
      have hfin := hpos k hk' e' he''
      have harith : i + 1 + k = i + (k + 1) := by omega
      rwa [harith] at hfin

theorem unmarshalLoop_first_success {V : Type} (zero : V) (data : List Nat) (dest : Dest V) :
    ∀ (cs : List (GoCodec V)) (i : Nat) (joined : Option GoErr) (k : Nat) (hk : k < cs.length),
    (cs.take k).all (fun c => (codecAttemptErr c zero data dest).isSome) = true →
    codecAttemptErr (cs.get ⟨k, hk⟩) zero data dest = none →
    unmarshalLoop zero data cs i joined dest =
      (commitDest dest (cs.get ⟨k, hk⟩) zero data, none) := by
intro cs
induction cs with
| nil => intro i joined k hk; simp at hk
| cons c rest ih =>
  intro i joined k hk hpre hs
  cases k with
  | zero =>
    exact unmarshalLoop_success_step zero data dest c rest i joined hs
  | succ k =>
    simp only [List.take_succ_cons, List.all_cons, Bool.and_eq_true] at hpre
    obtain ⟨e, he⟩ := Option.isSome_iff_exists.mp hpre.1
    rw [unmarshalLoop_step zero data dest c rest i joined e he]
    have hk' : k < rest.length := by simpa using hk
    have hs' : codecAttemptErr (rest.get ⟨k, hk'⟩) zero data dest = none := hs
    exact ih (i + 1) (some (errJoin2 joined (.wrap (codecTag i) e))) k hk' hpre.2 hs'

theorem marshalLoop_step {V : Type} (value : V) (c : GoCodec V) (rest : List (GoCodec V))
    (i : Nat) (joined : Option GoErr) (e : GoErr) (he : (c.marshal value).2 = some e) :
    marshalLoop value (c :: rest) i joined =
      marshalLoop value rest (i + 1) (some (errJoin2 joined (.wrap (codecTag i) e))) := by
rcases hres : c.marshal value with ⟨d, e?⟩
rw [hres] at he
replace he : e? = some e := he
subst he
simp only [marshalLoop, hres]

theorem marshalLoop_exhausted {V : Type} (value : V) :
    ∀ (cs : List (GoCodec V)) (i : Nat) (joined : Option GoErr),
    cs.all (fun c => ((c.marshal value).2).isSome) = true →
    ∃ J, marshalLoop value cs i joined =
        (none, some (.wrap "fallback marshal failed: " J)) ∧
      (∀ a x, joined = some a → GoErr.is a x = true → GoErr.is J x = true) ∧
      (∀ k : Nat, ∀ hk : k < cs.length, ∀ e : GoErr,
        ((cs.get ⟨k, hk⟩).marshal value).2 = some e →
        GoErr.is J (.wrap (codecTag (i + k)) e) = true) := by
intro cs
induction cs with
| nil =>
  intro i joined _
  refine ⟨joined.getD (.join .nil), rfl, ?_, ?_⟩
  · intro a x ha hx
    subst ha
    exact hx
  · intro k hk
    exact absurd hk (by simp)
| cons c rest ih =>
  intro i joined h
  simp only [List.all_cons, Bool.and_eq_true] at h
  obtain ⟨e, he⟩ := Option.isSome_iff_exists.mp h.1
  obtain ⟨J, hJ, hmono, hpos⟩ := ih (i + 1) (some (errJoin2 joined (.wrap (codecTag i) e))) h.2
  refine ⟨J, ?_, ?_, ?_⟩
  · rw [marshalLoop_step value c rest i joined e he]
    exact hJ
  · intro a x ha hx
    subst ha
    exact hmono _ x rfl (errJoin2_is_left a _ x hx)
  · intro k hk e' he'
    cases k with
    | zero =>
      have he'' : (c.marshal value).2 = some e' := he'
      have hee : e = e' := Option.some_inj.mp (he.symm.trans he'')
      subst hee
      have htag : GoErr.is (errJoin2 joined (.wrap (codecTag i) e)) (.wrap (codecTag i) e) = true :=
        errJoin2_is_right joined _ _ (GoErr.is_refl _)
      have hfin := hmono _ _ rfl htag
      simpa using hfin
    | succ k =>
      have hk' : k < rest.length := by simpa using hk
      have he'' : ((rest.get ⟨k, hk'⟩).marshal value).2 = some e' := he'
      have hfin := hpos k hk' e' he''
      have harith : i + 1 + k = i + (k + 1) := by omega
      rwa [harith] at hfin

theorem selectorLoop_agrees {K P : Type} (param : K) :
    ∀ (cs : List (Case K P)) (joined : List GoErr),
    (selectorWithErrorsLoop param joined cs).1 = (Selector param cs).1 ∧
    ((selectorWithErrorsLoop param joined cs).2 = none ↔ (Selector param cs).2 = none) := by
intro cs
induction cs with
| nil =>
  intro joined
  refine ⟨rfl, ?_⟩
  simp [selectorWithErrorsLoop, Selector]
| cons c rest ih =>
  intro joined
  rcases hc : c param with ⟨a, b⟩
  cases b with
  | some e =>
    cases hm : GoErr.is e ErrNotMatched with
    | true => simpa [Selector, selectorWithErrorsLoop, hc, hm] using ih joined
    | false => simpa [Selector, selectorWithErrorsLoop, hc, hm] using ih (joined ++ [e])
  | none =>
    cases a with
    | some p => simp [Selector, selectorWithErrorsLoop, hc]
    | none => simpa [Selector, selectorWithErrorsLoop, hc] using ih (joined ++ [ErrNilProvider])

/-! ## Claim theorems -/

/-- C1: for a non-nil pointer destination, `FallbackCodecGroup.Unmarshal`
is atomic with respect to the destination: when every codec's staged
attempt fails, the pointee after the call is exactly its prior value `p`
(with an error returned), and when the earliest succeeding codec sits at
index `k`, the pointee afterwards is exactly the value that codec wrote
into the fresh zero-valued temporary — never a mixture of old and new. -/
theorem fallback_unmarshal_atomic {V : Type} (g : FallbackCodecGroup V) (zero : V)
    (data : List Nat) (p : V) :
    (g.codecs.all (fun c => ((c.unmarshalPtr data zero).2).isSome) = true →
      (g.Unmarshal zero data (.ptr p)).1 = Dest.ptr p ∧
      ((g.Unmarshal zero data (.ptr p)).2).isSome = true) ∧
    (∀ k : Nat, ∀ hk : k < g.codecs.length,
      (g.codecs.take k).all (fun c => ((c.unmarshalPtr data zero).2).isSome) = true →
      ((g.codecs.get ⟨k, hk⟩).unmarshalPtr data zero).2 = none →
      g.Unmarshal zero data (.ptr p) =
        (Dest.ptr ((g.codecs.get ⟨k, hk⟩).unmarshalPtr data zero).1, none)) := by
constructor
· intro hall
  cases hemp : g.codecs.isEmpty with
  | true =>
    simp [FallbackCodecGroup.Unmarshal, hemp]
  | false =>
    obtain ⟨J, hJ, _, _⟩ :=
      unmarshalLoop_exhausted zero data (Dest.ptr p) g.codecs 0 none hall
    simp [FallbackCodecGroup.Unmarshal, hemp, hJ]
· intro k hk hpre hs
  have hne : ¬ (g.codecs.isEmpty = true) := by
    cases hcs : g.codecs.isEmpty with
    | true =>
      rw [List.isEmpty_iff] at hcs
      rw [hcs] at hk
      simp at hk
    | false => simp
  unfold FallbackCodecGroup.Unmarshal
  rw [if_neg hne]
  exact unmarshalLoop_first_success zero data (Dest.ptr p) g.codecs 0 none k hk hpre hs

/-- C1 witness: at concrete inputs, with both codecs failing the pointee 5
is untouched, and with the second codec succeeding the pointee becomes the
value 7 the codec wrote into the fresh temporary. -/
theorem fallback_unmarshal_atomic_witness :
    (FallbackCodecGroup.Unmarshal wFailPair 0 [1] (Dest.ptr 5)).1 = Dest.ptr 5 ∧
    FallbackCodecGroup.Unmarshal wGroup 0 [1] (Dest.ptr 5) =
      (Dest.ptr ((wGroup.codecs.get ⟨1, by decide⟩).unmarshalPtr [1] 0).1, none) :=
⟨((fallback_unmarshal_atomic wFailPair 0 [1] 5).1 (by decide)).1,
 (fallback_unmarshal_atomic wGroup 0 [1] 5).2 1 (by decide) (by decide) (by decide)⟩

/-- C10: for a nil typed pointer or non-pointer destination the group
skips the staged-temporary discipline and invokes each codec directly on
the given destination, in declared order: the earliest codec whose direct
attempt succeeds ends the call with a nil error and the destination as
given, and when every attempt fails the call returns (no panic, no
short-circuit) the aggregate carrying each codec's error tagged with its
position. -/
theorem fallback_unmarshal_direct {V : Type} (g : FallbackCodecGroup V) (zero : V)
    (data : List Nat) (dest : Dest V)
    (hd : dest = Dest.nilPtr ∨ dest = Dest.nonPtr) :
    (∀ k : Nat, ∀ hk : k < g.codecs.length,
      (g.codecs.take k).all (fun c => (codecAttemptErr c zero data dest).isSome) = true →
      codecAttemptErr (g.codecs.get ⟨k, hk⟩) zero data dest = none →
      g.Unmarshal zero data dest = (dest, none)) ∧
    (0 < g.codecs.length →
      g.codecs.all (fun c => (codecAttemptErr c zero data dest).isSome) = true →
      ∃ J, g.Unmarshal zero data dest =
          (dest, some (.wrap "fallback unmarshal failed: " J)) ∧
        ∀ k : Nat, ∀ hk : k < g.codecs.length, ∀ e : GoErr,
          codecAttemptErr (g.codecs.get ⟨k, hk⟩) zero data dest = some e →
          GoErr.is J (.wrap (codecTag k) e) = true) := by
constructor
· intro k hk hpre hs
  have hne : ¬ (g.codecs.isEmpty = true) := by
    cases hcs : g.codecs.isEmpty with
    | true =>
      rw [List.isEmpty_iff] at hcs
      rw [hcs] at hk
      simp at hk
    | false => simp
  unfold FallbackCodecGroup.Unmarshal
  rw [if_neg hne]
  rw [unmarshalLoop_first_success zero data dest g.codecs 0 none k hk hpre hs]
  rcases hd with hd | hd <;> subst hd <;> rfl
· intro hlen hall
  have hne : ¬ (g.codecs.isEmpty = true) := by
    cases hcs : g.codecs.isEmpty with
    | true =>
      rw [List.isEmpty_iff] at hcs
      rw [hcs] at hlen
      simp at hlen
    | false => simp
  obtain ⟨J, hJ, _, hpos⟩ := unmarshalLoop_exhausted zero data dest g.codecs 0 none hall
  refine ⟨J, ?_, ?_⟩
  · unfold FallbackCodecGroup.Unmarshal
    rw [if_neg hne]
    exact hJ
  · intro k hk e he
    have hfin := hpos k hk e he
    simpa using hfin

/-- C10 witness: at concrete inputs, a nil-pointer destination succeeds
untouched once some codec accepts it, and a non-pointer destination with
every codec failing yields the position-tagged aggregate. -/
theorem fallback_unmarshal_direct_witness :
    FallbackCodecGroup.Unmarshal wGroup 0 [1] Dest.nilPtr = (Dest.nilPtr, none) ∧
    ∃ J, FallbackCodecGroup.Unmarshal wFailPair 0 [1] Dest.nonPtr =
        (Dest.nonPtr, some (.wrap "fallback unmarshal failed: " J)) ∧
      ∀ k : Nat, ∀ hk : k < wFailPair.codecs.length, ∀ e : GoErr,
        codecAttemptErr (wFailPair.codecs.get ⟨k, hk⟩) 0 [1] Dest.nonPtr = some e →
        GoErr.is J (.wrap (codecTag k) e) = true :=
⟨(fallback_unmarshal_direct wGroup 0 [1] Dest.nilPtr (Or.inl rfl)).1 1 (by decide)
    (by decide) (by decide),
 (fallback_unmarshal_direct wFailPair 0 [1] Dest.nonPtr (Or.inr rfl)).2 (by decide) (by decide)⟩

/-- C4: in a non-empty group in which every codec fails, `Marshal`
(resp. `Unmarshal`) returns a single error of the terminal exhaustion
shape — the `fallback marshal failed` / `fallback unmarshal failed`
wrapper around the join — from which each codec's individual cause is
recoverable together with its position (via the `codec[i]:` tag) and by
`errors.Is` against the raw cause. -/
theorem fallback_group_exhaustion {V : Type} (g : FallbackCodecGroup V) (value zero : V)
    (data : List Nat) (dest : Dest V) (hlen : 0 < g.codecs.length) :
    (g.codecs.all (fun c => ((c.marshal value).2).isSome) = true →
      ∃ J, g.Marshal value = (none, some (.wrap "fallback marshal failed: " J)) ∧
        ∀ k : Nat, ∀ hk : k < g.codecs.length, ∀ e : GoErr,
          ((g.codecs.get ⟨k, hk⟩).marshal value).2 = some e →
          GoErr.is J (.wrap (codecTag k) e) = true ∧ GoErr.is J e = true) ∧
    (g.codecs.all (fun c => (codecAttemptErr c zero data dest).isSome) = true →
      ∃ J, g.Unmarshal zero data dest =
          (dest, some (.wrap "fallback unmarshal failed: " J)) ∧
        ∀ k : Nat, ∀ hk : k < g.codecs.length, ∀ e : GoErr,
          codecAttemptErr (g.codecs.get ⟨k, hk⟩) zero data dest = some e →
          GoErr.is J (.wrap (codecTag k) e) = true ∧ GoErr.is J e = true) := by
have hne : ¬ (g.codecs.isEmpty = true) := by
  cases hcs : g.codecs.isEmpty with
  | true =>
    rw [List.isEmpty_iff] at hcs
    rw [hcs] at hlen
    simp at hlen
  | false => simp
constructor
· intro hall
  obtain ⟨J, hJ, _, hpos⟩ := marshalLoop_exhausted value g.codecs 0 none hall
  refine ⟨J, ?_, ?_⟩
  · unfold FallbackCodecGroup.Marshal
    rw [if_neg hne]
    exact hJ
  · intro k hk e he
    have htag : GoErr.is J (.wrap (codecTag k) e) = true := by
      have := hpos k hk e he
      simpa using this
    refine ⟨htag, GoErr.is_trans J (.wrap (codecTag k) e) e htag ?_⟩
    simp [GoErr.is, GoErr.is_refl]
· intro hall
  obtain ⟨J, hJ, _, hpos⟩ := unmarshalLoop_exhausted zero data dest g.codecs 0 none hall
  refine ⟨J, ?_, ?_⟩
  · unfold FallbackCodecGroup.Unmarshal
    rw [if_neg hne]
    exact hJ
  · intro k hk e he
    have htag : GoErr.is J (.wrap (codecTag k) e) = true := by
      have := hpos k hk e he
      simpa using this
    refine ⟨htag, GoErr.is_trans J (.wrap (codecTag k) e) e htag ?_⟩
    simp [GoErr.is, GoErr.is_refl]

/-- C4 witness: with both concrete codecs failing, marshal and unmarshal
each return the terminal wrapper with every tagged cause recoverable. -/
theorem fallback_group_exhaustion_witness :
    (∃ J, FallbackCodecGroup.Marshal wFailPair 3 =
        (none, some (.wrap "fallback marshal failed: " J)) ∧
      ∀ k : Nat, ∀ hk : k < wFailPair.codecs.length, ∀ e : GoErr,
        ((wFailPair.codecs.get ⟨k, hk⟩).marshal 3).2 = some e →
        GoErr.is J (.wrap (codecTag k) e) = true ∧ GoErr.is J e = true) ∧
    (∃ J, FallbackCodecGroup.Unmarshal wFailPair 0 [1] (Dest.ptr 5) =
        (Dest.ptr 5, some (.wrap "fallback unmarshal failed: " J)) ∧
      ∀ k : Nat, ∀ hk : k < wFailPair.codecs.length, ∀ e : GoErr,
        codecAttemptErr (wFailPair.codecs.get ⟨k, hk⟩) 0 [1] (Dest.ptr 5) = some e →
        GoErr.is J (.wrap (codecTag k) e) = true ∧ GoErr.is J e = true) :=
⟨(fallback_group_exhaustion wFailPair 3 0 [1] (Dest.ptr 5) (by decide)).1 (by decide),
 (fallback_group_exhaustion wFailPair 3 0 [1] (Dest.ptr 5) (by decide)).2 (by decide)⟩

/-- C2: first-match-wins — when every case before `c` fails (predicate
false, factory error, or nil provider) and `c` yields provider `p` with a
nil error, both `Selector` and `SelectorWithErrors` return exactly `p`,
for every list of later cases `post`: the later cases are past the point
where the traversal returns, so their outcomes cannot change the result. -/
theorem selector_first_match {K P : Type} (param : K) (pre post : List (Case K P))
    (c : Case K P) (p : P)
    (hpre : pre.all (caseFails param) = true)
    (h1 : (c param).1 = some p) (h2 : (c param).2 = none) :
    Selector param (pre ++ c :: post) = (some p, none) ∧
    SelectorWithErrors param (pre ++ c :: post) = (some p, none) := by
constructor
· rw [Selector_skip_all param pre (c :: post) hpre]
  exact Selector_success param c post p h1 h2
· unfold SelectorWithErrors
  rw [selectorLoop_append param pre (c :: post) [] hpre]
  exact selectorLoop_success param c post p _ h1 h2

/-- C2 witness: with a non-matching case and an erroring case first, the
matching case yields provider 7 in both modes, with a later
always-matching case present. -/
theorem selector_first_match_witness :
    Selector 42 ([wCaseNotMatched, wCaseErr] ++ wCaseOk :: [wCaseLater]) = (some 7, none) ∧
    SelectorWithErrors 42 ([wCaseNotMatched, wCaseErr] ++ wCaseOk :: [wCaseLater]) =
      (some 7, none) :=
selector_first_match 42 [wCaseNotMatched, wCaseErr] [wCaseLater] wCaseOk 7
  (by decide) (by decide) (by decide)

/-- C5: when no case selects a provider — zero cases, all predicates
false, factories failing or returning nil — `Selector` returns exactly
`(nil, ErrNoValidProvider)` and `SelectorWithErrors` returns a nil
provider with an error satisfying `errors.Is` against
`ErrNoValidProvider`. -/
theorem selector_no_valid_provider {K P : Type} (param : K) (cs : List (Case K P))
    (h : cs.all (caseFails param) = true) :
    Selector param cs = (none, some ErrNoValidProvider) ∧
    ∃ e, SelectorWithErrors param cs = (none, some e) ∧
      GoErr.is e ErrNoValidProvider = true := by
refine ⟨Selector_exhausted param cs h, ?_⟩
refine ⟨_, SelectorWithErrors_exhausted param cs h, ?_⟩
exact joinL_is_of_mem _ ErrNoValidProvider ErrNoValidProvider (by simp) (GoErr.is_refl _)

/-- C5 witness: a not-matched case, an erroring case and a `(nil, nil)`
case together select nothing and fail as `ErrNoValidProvider`. -/
theorem selector_no_valid_provider_witness :
    Selector 1 [wCaseNotMatched, wCaseErr, wCaseNil] = (none, some ErrNoValidProvider) ∧
    ∃ e, SelectorWithErrors 1 [wCaseNotMatched, wCaseErr, wCaseNil] = (none, some e) ∧
      GoErr.is e ErrNoValidProvider = true :=
selector_no_valid_provider 1 [wCaseNotMatched, wCaseErr, wCaseNil] (by decide)

/-- C6: when `SelectorWithErrors` selects nothing, its single error
satisfies `errors.Is` for `ErrNoValidProvider` and for every case error
not matching `ErrNotMatched`; the joined entries carry at least one
`ErrNilProvider` per `(nil, nil)` case; and the aggregate never satisfies
`errors.Is` against `ErrNotMatched` (not-matched markers are dropped, and
no aggregated entry matches it). -/
theorem selector_with_errors_aggregate {K P : Type} (param : K) (cs : List (Case K P))
    (h : cs.all (caseFails param) = true) :
    ∃ E, SelectorWithErrors param cs = (none, some E) ∧
      GoErr.is E ErrNoValidProvider = true ∧
      (∀ c ∈ cs, ∀ e : GoErr, (c param).2 = some e →
        GoErr.is e ErrNotMatched = false → GoErr.is E e = true) ∧
      (∃ L, E = .join (GoErrList.ofList (L ++ [ErrNoValidProvider])) ∧
        cs.countP (fun c => (c param).1.isNone && (c param).2.isNone) ≤
          L.countP (fun e => e == ErrNilProvider)) ∧
      GoErr.is E ErrNotMatched = false := by
refine ⟨_, SelectorWithErrors_exhausted param cs h, ?_, ?_, ?_, ?_⟩
· exact joinL_is_of_mem _ ErrNoValidProvider ErrNoValidProvider (by simp) (GoErr.is_refl _)
· intro c hc e he hnm
  refine joinL_is_of_mem _ e e ?_ (GoErr.is_refl _)
  exact List.mem_append.mpr (Or.inl (collectErrs_mem param cs h c hc e he hnm))
· exact ⟨collectErrs param cs, rfl, collectErrs_count param cs h⟩
· refine joinL_is_base_false _ _ ?_
  intro e he
  rcases List.mem_append.mp he with he | he
  · exact collectErrs_not_matched param cs e he
  · have : e = ErrNoValidProvider := by simpa using he
    subst this
    decide

/-- C6 witness: the concrete failing run aggregates the ordinary case
error and the `(nil, nil)` marker under `ErrNoValidProvider`, and never
matches `ErrNotMatched`. -/
theorem selector_with_errors_aggregate_witness :
    ∃ E, SelectorWithErrors 1 [wCaseNotMatched, wCaseErr, wCaseNil] = (none, some E) ∧
      GoErr.is E ErrNoValidProvider = true ∧
      (∀ c ∈ [wCaseNotMatched, wCaseErr, wCaseNil], ∀ e : GoErr, (c 1).2 = some e →
        GoErr.is e ErrNotMatched = false → GoErr.is E e = true) ∧
      (∃ L, E = .join (GoErrList.ofList (L ++ [ErrNoValidProvider])) ∧
        List.countP (fun c => (c 1).1.isNone && (c 1).2.isNone)
            [wCaseNotMatched, wCaseErr, wCaseNil] ≤
          L.countP (fun e => e == ErrNilProvider)) ∧
      GoErr.is E ErrNotMatched = false :=
selector_with_errors_aggregate 1 [wCaseNotMatched, wCaseErr, wCaseNil] (by decide)

/-- C7: `Selector` and `SelectorWithErrors` are equivalent up to error
detail: on every input they return the same provider component, and one
succeeds (nil error) exactly when the other does.  Both traversals walk
the same case list front to back by construction, so the selected case is
the same earliest successful one. -/
theorem selector_modes_equivalent {K P : Type} (param : K) (cs : List (Case K P)) :
    (Selector param cs).1 = (SelectorWithErrors param cs).1 ∧
    ((Selector param cs).2 = none ↔ (SelectorWithErrors param cs).2 = none) := by
have h := selectorLoop_agrees param cs []
exact ⟨h.1.symm, h.2.symm⟩

/-- C3: for a 2xx response under a positive limit `maxBodySize`: a
declared content length above the limit fails with `ErrBodyTooLarge`
while buffering zero body bytes; otherwise at most `maxBodySize + 1`
bytes are read into the buffer, a stream longer than the limit fails with
`ErrBodyTooLarge`, and a body of exactly `maxBodySize` bytes succeeds
returning exactly those bytes.  (Bytes drained to `io.Discard` after a
failure are tracked separately in `consumed`.) -/
theorem http_read_size_ceiling (h : HTTP) (resp : HTTPResponse)
    (hM : 0 < h.maxBodySize) (hlo : 200 ≤ resp.statusCode) (hhi : resp.statusCode < 300) :
    (h.maxBodySize < resp.contentLength →
      (h.Read resp).data = none ∧ (h.Read resp).buffered = 0 ∧
      optErrIs (h.Read resp).err ErrBodyTooLarge = true) ∧
    (resp.contentLength ≤ h.maxBodySize →
      ((h.Read resp).buffered : Int) ≤ h.maxBodySize + 1 ∧
      (h.maxBodySize < (resp.body.length : Int) →
        (h.Read resp).data = none ∧ optErrIs (h.Read resp).err ErrBodyTooLarge = true) ∧
      ((resp.body.length : Int) = h.maxBodySize →
        (h.Read resp).data = some resp.body ∧ (h.Read resp).err = none)) := by
have hst : ¬ (resp.statusCode < 200 ∨ 300 ≤ resp.statusCode) := by omega
constructor
· intro hcl
  have hcc : 0 < h.maxBodySize ∧ h.maxBodySize < resp.contentLength := ⟨hM, hcl⟩
  simp only [HTTP.Read, if_neg hst, if_pos hcc]
  simp [optErrIs, GoErr.is, ErrBodyTooLarge]
· intro hcl
  have hcc : ¬ (0 < h.maxBodySize ∧ h.maxBodySize < resp.contentLength) := by omega
  simp only [HTTP.Read, if_neg hst, if_neg hcc, if_pos hM]
  have hlen : ((resp.body.take (h.maxBodySize + 1).toNat).length : Int) ≤ h.maxBodySize + 1 := by
    rw [List.length_take]
    omega
  refine ⟨?_, ?_, ?_⟩
  · by_cases hov : 0 < h.maxBodySize ∧
        h.maxBodySize < ((resp.body.take (h.maxBodySize + 1).toNat).length : Int)
    · simp only [if_pos hov]
      exact hlen
    · simp only [if_neg hov]
      exact hlen
  · intro hbig
    have hov : 0 < h.maxBodySize ∧
        h.maxBodySize < ((resp.body.take (h.maxBodySize + 1).toNat).length : Int) := by
      refine ⟨hM, ?_⟩
      rw [List.length_take]
      omega
    simp only [if_pos hov]
    simp [optErrIs, GoErr.is, ErrBodyTooLarge]
  · intro hexact
    have htake : resp.body.take (h.maxBodySize + 1).toNat = resp.body := by
      apply List.take_of_length_le
      omega
    have hov : ¬ (0 < h.maxBodySize ∧
        h.maxBodySize < ((resp.body.take (h.maxBodySize + 1).toNat).length : Int)) := by
      rw [htake]
      omega
    simp only [if_neg hov]
    exact ⟨by rw [htake], trivial⟩

/-- C3 witness: with limit 3, a declared content length 9 fast-fails with
zero bytes buffered; a body of exactly 3 bytes is returned whole; a 5-byte
stream fails with `ErrBodyTooLarge`. -/
theorem http_read_size_ceiling_witness :
    ((wHTTP.Read wRespBig).data = none ∧ (wHTTP.Read wRespBig).buffered = 0 ∧
      optErrIs (wHTTP.Read wRespBig).err ErrBodyTooLarge = true) ∧
    (((wHTTP.Read wRespOk).buffered : Int) ≤ wHTTP.maxBodySize + 1 ∧
      (wHTTP.Read wRespOk).data = some wRespOk.body ∧ (wHTTP.Read wRespOk).err = none) ∧
    ((wHTTP.Read wRespStream).data = none ∧
      optErrIs (wHTTP.Read wRespStream).err ErrBodyTooLarge = true) := by
refine ⟨(http_read_size_ceiling wHTTP wRespBig (by decide) (by decide) (by decide)).1
  (by decide), ?_, ?_⟩
· have hc := (http_read_size_ceiling wHTTP wRespOk (by decide) (by decide) (by decide)).2
    (by decide)
  exact ⟨hc.1, hc.2.2 (by decide)⟩
· have hc := (http_read_size_ceiling wHTTP wRespStream (by decide) (by decide) (by decide)).2
    (by decide)
  exact hc.2.1 (by decide)

/-- C8: a response with a status outside the 2xx range yields no bytes,
drains the whole body stream, and fails with an error whose message names
the configured method, the endpoint URL and the exact status text. -/
theorem http_read_status_error (h : HTTP) (resp : HTTPResponse)
    (hbad : resp.statusCode < 200 ∨ 300 ≤ resp.statusCode) :
    (h.Read resp).data = none ∧
    (h.Read resp).consumed = resp.body.length ∧
    ∃ msg : String, (h.Read resp).err = some (.base msg) ∧
      ∃ s1 s2 s3 : String, msg = s1 ++ h.method ++ s2 ++ h.url ++ s3 ++ resp.status := by
simp only [HTTP.Read, if_pos hbad]
exact ⟨trivial, trivial,
  "http provider: " ++ h.method ++ " " ++ h.url ++ " unexpected status " ++ resp.status,
  rfl, "http provider: ", " ", " unexpected status ", rfl⟩

/-- C8 witness: a GET receiving a 500 yields no bytes, drains the 3-byte
body, and reports method, URL and the status text. -/
theorem http_read_status_error_witness :
    (wHTTP.Read wRespErr).data = none ∧
    (wHTTP.Read wRespErr).consumed = wRespErr.body.length ∧
    ∃ msg : String, (wHTTP.Read wRespErr).err = some (.base msg) ∧
      ∃ s1 s2 s3 : String, msg = s1 ++ wHTTP.method ++ s2 ++ wHTTP.url ++ s3 ++ wRespErr.status :=
http_read_status_error wHTTP wRespErr (Or.inr (by decide))

/-- C9: `ExpandEnv.Read` forwards a wrapped-provider failure unchanged
with nil bytes; and when the wrapped read succeeds with a payload holding
no `$` byte (the empty payload included), it returns the very same slice,
with the expansion function never applied. -/
theorem expand_env_read_noop (expandFn : List Nat → List Nat)
    (innerData : Option (List Nat)) (innerErr : Option GoErr) :
    (∀ e : GoErr, innerErr = some e →
      ExpandEnv.Read expandFn innerData innerErr = (none, some e)) ∧
    (innerErr = none → (innerData.getD []).contains 36 = false →
      ExpandEnv.Read expandFn innerData innerErr = (innerData, none)) := by
constructor
· intro e he
  subst he
  rfl
· intro he hnd
  subst he
  have hcond : (innerData.getD []).length = 0 ∨ (innerData.getD []).contains 36 = false :=
    Or.inr hnd
  simp only [ExpandEnv.Read]
  rw [if_pos hcond]

/-- C9 witness: a failing inner read propagates its error with nil bytes;
a dollar-free payload is returned byte-identically. -/
theorem expand_env_read_noop_witness :
    ExpandEnv.Read (fun bs => bs ++ [0]) (some [65, 66]) (some (.base "read boom")) =
      (none, some (.base "read boom")) ∧
    ExpandEnv.Read (fun bs => bs ++ [0]) (some [65, 66]) none = (some [65, 66], none) :=
⟨(expand_env_read_noop (fun bs => bs ++ [0]) (some [65, 66]) (some (.base "read boom"))).1
    (.base "read boom") rfl,
 (expand_env_read_noop (fun bs => bs ++ [0]) (some [65, 66]) none).2 rfl (by decide)⟩

end Confstore
